import Mathlib

/-!
Verification of the `art::MemoryPool` fixed-size object pool
(`src/ArtMemoryPool.hpp`) against its design specification.

The C++ source is shallowly embedded: addresses are natural numbers with
`size_t` arithmetic taken modulo `2 ^ 64`, the intrusive `PointerList`s are
modelled as lists of the addresses they would link through (valid under the
caller contract that linked regions are pointer-sized and unaliased), and
the external system allocator (an external collaborator per spec section 6)
is an oracle `heap : Nat → Nat` giving the result of the k-th `malloc`
call, with `0` playing the role of the null pointer (allocation failure).
The `float` growth computation `mNextAllocSize * mAllocSizeGrow` is
abstracted as an arbitrary function `grow : Nat → Nat`, since no claim
depends on the exact floating-point rounding.
-/

namespace art

/-- Width of the modelled address space: the code manipulates `char*` and
`size_t` on a 64-bit platform, where arithmetic wraps modulo `2 ^ 64`. -/
def wordSize : Nat := 2 ^ 64

/-- `sizeof(void*)` on the modelled 64-bit platform. -/
def ptrSize : Nat := 8

/-- Embedding of `art::internal::align` (src lines 107-116):
`ptr += alignment - (reinterpret_cast<size_t>(ptr) & ((alignment<<1UL)-1UL))`.
The subtraction and the pointer addition are `size_t` operations, hence the
explicit `% wordSize` wraparounds; `alignment + wordSize - mask` is the
natural-number rendering of the unsigned subtraction `alignment - mask`. -/
def align (p alignment : Nat) : Nat :=
  (p + (alignment + wordSize - (p &&& (2 * alignment - 1))) % wordSize) % wordSize

/-- The data members of `art::MemoryPool<T>` (src lines 91-98).
`mBlockList` and `mChunkList` are the two intrusive `PointerList`s, modelled
as the lists of addresses they chain (head = most recently pushed);
`mCurrentBlock`/`mCurrentBlockEnd` are the cursor pointers; the `float`
member `mAllocSizeGrow` lives in `Ctx.grow`. -/
structure MemoryPool where
  mBlockList : List Nat
  mChunkList : List Nat
  mNextAllocSize : Nat
  mCurrentBlock : Nat
  mCurrentBlockEnd : Nat
deriving Repr, DecidableEq

/-- Static parameters of one pool instantiation together with its
environment: `sizeT = sizeof(T)`, `alignT = alignof(T)`, `grow` models the
`float` update `mNextAllocSize * mAllocSizeGrow` truncated back to
`size_t`, and `heap k` is the address returned by the k-th call to the
system allocator (`0` = null = failure). -/
structure Ctx where
  sizeT : Nat
  alignT : Nat
  grow : Nat → Nat
  heap : Nat → Nat

/-- A pool together with its interaction history with the system
allocator: `mallocs` counts `malloc` calls (and indexes `heap`),
`requests` logs the byte size of every `malloc` request (most recent
first), `freed` logs every address passed to `free`. -/
structure World where
  pool : MemoryPool
  mallocs : Nat
  requests : List Nat
  freed : List Nat

/-- State after `MemoryPool<T>::MemoryPool` (src lines 149-164): both lists
empty, `mNextAllocSize = 1024`, null cursor, and no allocator traffic. -/
def initWorld : World :=
  { pool := { mBlockList := [], mChunkList := [], mNextAllocSize := 1024,
              mCurrentBlock := 0, mCurrentBlockEnd := 0 },
    mallocs := 0, requests := [], freed := [] }

/-- Embedding of `MemoryPool<T>::bytesToAlloc` (src lines 239-243):
`mNextAllocSize*sizeof(T) + alignof(T)`. -/
def bytesToAlloc (c : Ctx) (w : World) : Nat :=
  w.pool.mNextAllocSize * c.sizeT + c.alignT

/-- Embedding of `MemoryPool<T>::callMalloc` (src lines 245-255): request
`bytesToAlloc()` bytes; on success push the raw block onto `mBlockList`;
in either case multiply `mNextAllocSize` by the growth factor, and return
the possibly-null pointer. -/
def callMalloc (c : Ctx) (w : World) : Nat × World :=
  let req := bytesToAlloc c w
  let memory := c.heap w.mallocs
  let bl := if memory = 0 then w.pool.mBlockList else memory :: w.pool.mBlockList
  (memory,
   { w with
       pool := { w.pool with
                   mBlockList := bl,
                   mNextAllocSize := c.grow w.pool.mNextAllocSize },
       mallocs := w.mallocs + 1,
       requests := req :: w.requests })

/-- Embedding of `MemoryPool<T>::alignedMalloc` (src lines 257-261):
`align(callMalloc() + sizeof(void*), alignof(T))` — note that the
`sizeof(void*)` header skip and the alignment are applied even when
`callMalloc` returned null. -/
def alignedMalloc (c : Ctx) (w : World) : Nat × World :=
  let r := callMalloc c w
  (align ((r.1 + ptrSize) % wordSize) c.alignT, r.2)

/-- Embedding of `MemoryPool<T>::allocBlock` (src lines 219-225): read
`mNextAllocSize` before the call (callMalloc mutates it), then reset the
cursor into the freshly aligned region, unconditionally. -/
def allocBlock (c : Ctx) (w : World) : World :=
  let allocSize := w.pool.mNextAllocSize
  let r := alignedMalloc c w
  { r.2 with
      pool := { r.2.pool with
                  mCurrentBlock := r.1,
                  mCurrentBlockEnd := (r.1 + allocSize * c.sizeT) % wordSize } }

/-- Embedding of `MemoryPool<T>::createChunk` (src lines 227-237): hand out
`mCurrentBlock` and advance it by `sizeof(T)`. -/
def createChunk (c : Ctx) (w : World) : Nat × World :=
  let chunk := w.pool.mCurrentBlock
  (chunk,
   { w with pool := { w.pool with mCurrentBlock := (chunk + c.sizeT) % wordSize } })

/-- Embedding of `MemoryPool<T>::allocate` (src lines 173-185): pop the
free-chunk list if non-empty; otherwise carve from the current block if
`mCurrentBlock + sizeof(T) <= mCurrentBlockEnd`; otherwise acquire a new
block (with no check of the result) and carve. -/
def allocate (c : Ctx) (w : World) : Nat × World :=
  match w.pool.mChunkList with
  | x :: rest => (x, { w with pool := { w.pool with mChunkList := rest } })
  | [] =>
    if w.pool.mCurrentBlock + c.sizeT ≤ w.pool.mCurrentBlockEnd then
      createChunk c w
    else
      createChunk c (allocBlock c w)

/-- Embedding of `MemoryPool<T>::deallocate` (src lines 187-193): push the
chunk onto the free-chunk list. -/
def deallocate (x : Nat) (w : World) : World :=
  { w with pool := { w.pool with mChunkList := x :: w.pool.mChunkList } }

/-- The `while (memory != memoryEnd)` loop of `reserve` (src lines
209-216), which pushes `memory, memory+sizeof(T), ...` onto the free-chunk
list. Since `memoryEnd = memory + n*sizeof(T)` and `memory` advances by
`sizeof(T)` each iteration, the loop runs exactly `n` times; the recursion
is on that iteration count. -/
def pushRange (s : Nat) : Nat → Nat → List Nat → List Nat
  | _, 0, l => l
  | memory, n + 1, l => pushRange s ((memory + s) % wordSize) n (memory :: l)

/-- Embedding of `MemoryPool<T>::reserve` (src lines 195-217): overwrite
`mNextAllocSize` with `n`, acquire via `alignedMalloc`, and unless the
aligned pointer is null push the `n` carved chunks onto the free-chunk
list. The cursor is never touched. -/
def reserve (c : Ctx) (n : Nat) (w : World) : World :=
  let w1 := { w with pool := { w.pool with mNextAllocSize := n } }
  let allocSize := n
  let r := alignedMalloc c w1
  if r.1 = 0 then r.2
  else
    { r.2 with
        pool := { r.2.pool with
                    mChunkList := pushRange c.sizeT r.1 allocSize r.2.pool.mChunkList } }

/-- Embedding of `MemoryPool<T>::~MemoryPool` (src lines 166-171): pop and
`::free` every block in `mBlockList`. -/
def destroy (w : World) : World :=
  { w with pool := { w.pool with mBlockList := [] },
           freed := w.freed ++ w.pool.mBlockList }

/-- One client-visible pool operation paired with the ghost list of live
chunks (issued by `allocate` and not yet returned). The `dealloc`
constructor carries the caller contract of src lines 187-193 and spec
section 4.3: only a chunk previously obtained from `allocate` and not
already deallocated may be passed to `deallocate`. -/
inductive Step (c : Ctx) : World × List Nat → World × List Nat → Prop
  | alloc (w : World) (live : List Nat) :
      Step c (w, live) ((allocate c w).2, (allocate c w).1 :: live)
  | dealloc (w : World) (live : List Nat) (x : Nat) (hx : x ∈ live) :
      Step c (w, live) (deallocate x w, live.erase x)
  | reserveStep (w : World) (live : List Nat) (n : Nat) (hn : 0 < n) :
      Step c (w, live) (reserve c n w, live)

/-- Pool states reachable from a freshly constructed pool by sequences of
operations respecting the caller contract. -/
def Reach (c : Ctx) (p : World × List Nat) : Prop :=
  Relation.ReflTransGen (Step c) (initWorld, []) p

/-- Iterated `allocate`, discarding the returned chunks. -/
def allocN (c : Ctx) : Nat → World → World
  | 0, w => w
  | k + 1, w => allocN c k (allocate c w).2

/-- The successful results among the first `n` system-allocator calls,
most recent first: exactly the blocks `callMalloc` pushes onto
`mBlockList`. -/
def successList (heap : Nat → Nat) : Nat → List Nat
  | 0 => []
  | n + 1 =>
      if heap n = 0 then successList heap n else heap n :: successList heap n

/-- A concrete working environment: `sizeof(T) = alignof(T) = 8`, growth
factor 2.0, and a system allocator handing out disjoint 16-aligned
megabyte-spaced blocks. -/
def ctxOk : Ctx :=
  { sizeT := 8, alignT := 8, grow := fun m => 2 * m,
    heap := fun k => (k + 1) * 1048576 }

/-- A concrete exhausted environment: same pool parameters, but every
system-allocator request fails (returns null). -/
def ctxFail : Ctx :=
  { sizeT := 8, alignT := 8, grow := fun m => 2 * m, heap := fun _ => 0 }

/-- Environment with `sizeof(T) = 8`, `alignof(T) = 4` and a single block
at address 16, used to exhibit the undersized block request. -/
def ctxA4 : Ctx :=
  { sizeT := 8, alignT := 4, grow := fun m => 2 * m, heap := fun _ => 16 }

/-- For a power-of-two alignment dividing the word size, the result of
`align` is always a multiple of the alignment, wraparound included. -/
lemma align_mod (p k : Nat) (hk : k ≤ 64) : align p (2 ^ k) % 2 ^ k = 0 := by
  have hmask : p &&& (2 * 2 ^ k - 1) = p % (2 * 2 ^ k) := by
    have h := Nat.and_pow_two_sub_one_eq_mod p (k + 1)
    rwa [pow_succ, mul_comm (2 ^ k) 2] at h
  have hW : (2 ^ k : Nat) ∣ wordSize := pow_dvd_pow 2 hk
  have haW : (2 ^ k : Nat) ≤ wordSize := Nat.pow_le_pow_right (by norm_num) hk
  have h2a : (2 ^ k : Nat) ∣ 2 * 2 ^ k := dvd_mul_left _ _
  have hm : p % (2 * 2 ^ k) % 2 ^ k = p % 2 ^ k := Nat.mod_mod_of_dvd p h2a
  have hmlt : p % (2 * 2 ^ k) < 2 * 2 ^ k := Nat.mod_lt _ (by positivity)
  unfold align
  rw [hmask, Nat.mod_mod_of_dvd _ hW, Nat.add_mod, Nat.mod_mod_of_dvd _ hW, ← hm,
    ← Nat.add_mod]
  have he : p % (2 * 2 ^ k) + (2 ^ k + wordSize - p % (2 * 2 ^ k)) = 2 ^ k + wordSize := by
    omega
  rw [he]
  obtain ⟨u, hu⟩ := hW
  have h3 : (2 ^ k : Nat) + wordSize = 2 ^ k * (1 + u) := by rw [hu]; ring
  rw [h3, Nat.mul_mod_right]

/-- When no wraparound occurs, `align` advances by exactly
`alignment - (p mod 2*alignment)` interpreted as a (possibly negative)
displacement: the result is `p + alignment - (p mod 2*alignment)`. -/
lemma align_eq (p k : Nat) (hp : p + 2 ^ k < wordSize) :
    align p (2 ^ k) = p + 2 ^ k - p % (2 * 2 ^ k) := by
  have hmask : p &&& (2 * 2 ^ k - 1) = p % (2 * 2 ^ k) := by
    have h := Nat.and_pow_two_sub_one_eq_mod p (k + 1)
    rwa [pow_succ, mul_comm (2 ^ k) 2] at h
  have hmlt : p % (2 * 2 ^ k) < 2 * 2 ^ k := Nat.mod_lt _ (by positivity)
  have hmle : p % (2 * 2 ^ k) ≤ p := Nat.mod_le _ _
  unfold align
  rw [hmask]
  rcases le_or_lt (p % (2 * 2 ^ k)) (2 ^ k) with h | h
  · have h1 : (2 ^ k + wordSize - p % (2 * 2 ^ k)) % wordSize
        = 2 ^ k - p % (2 * 2 ^ k) := by
      have h2 : 2 ^ k + wordSize - p % (2 * 2 ^ k)
          = (2 ^ k - p % (2 * 2 ^ k)) + wordSize := by omega
      rw [h2, Nat.add_mod_right]
      exact Nat.mod_eq_of_lt (by omega)
    rw [h1, Nat.mod_eq_of_lt (by omega)]
    omega
  · have h1 : (2 ^ k + wordSize - p % (2 * 2 ^ k)) % wordSize
        = 2 ^ k + wordSize - p % (2 * 2 ^ k) := Nat.mod_eq_of_lt (by omega)
    rw [h1]
    have h2 : p + (2 ^ k + wordSize - p % (2 * 2 ^ k))
        = wordSize + (p + 2 ^ k - p % (2 * 2 ^ k)) := by omega
    rw [h2, Nat.add_mod_left]
    exact Nat.mod_eq_of_lt (by omega)

/-- C4 counterexample: the claim that the alignment utility always returns
an address greater than or equal to its input is false: on input address 15
with alignment 8 the advance `8 - (15 mod 16)` wraps and the result is 8,
which is strictly below the input. -/
theorem c4_cex : align 15 8 = 8 ∧ align 15 8 < 15 := by decide

/-- C4 (amended): for every power-of-two alignment `2 ^ k` dividing the
word size and every address `p` that does not overflow, the utility
returns `p + 2^k - (p mod 2^(k+1))`, i.e. it advances by
`alignment - (address mod 2*alignment)` in wrapping `size_t` arithmetic;
the result always satisfies `result mod alignment = 0`, but it is greater
than or equal to the input only under the additional condition
`address mod 2*alignment ≤ alignment`. -/
theorem c4_amended (p k : Nat) (hk : k ≤ 64) (hp : p + 2 ^ k < wordSize) :
    align p (2 ^ k) = p + 2 ^ k - p % (2 * 2 ^ k) ∧
    align p (2 ^ k) % 2 ^ k = 0 ∧
    (p % (2 * 2 ^ k) ≤ 2 ^ k → p ≤ align p (2 ^ k)) := by
  have h1 := align_eq p k hp
  refine ⟨h1, align_mod p k hk, fun h3 => ?_⟩
  have h4 := Nat.mod_le p (2 * 2 ^ k)
  omega

/-- C4 witness: the amended theorem applied to address 100, alignment 8. -/
theorem c4_amended_witness :
    align 100 (2 ^ 3) = 100 + 2 ^ 3 - 100 % (2 * 2 ^ 3) ∧
    align 100 (2 ^ 3) % 2 ^ 3 = 0 ∧
    (100 % (2 * 2 ^ 3) ≤ 2 ^ 3 → 100 ≤ align 100 (2 ^ 3)) :=
  c4_amended 100 3 (by norm_num) (by norm_num [wordSize])

/-- C1: evaluation of `allocate` at the failing input — a fresh pool
(empty free list, exhausted cursor) whose system allocator returns null.
The code reports no failure: it returns the chunk address 8 (carved from
`align(nullptr + sizeof(void*), 8)`), and it leaves the cursor spanning
`[16, 8200)` even though `mBlockList` shows that no memory was ever
acquired, contradicting the claimed explicit out-of-memory report. -/
theorem c1_eval :
    (allocate ctxFail initWorld).1 = 8 ∧
    (allocate ctxFail initWorld).2.pool.mCurrentBlock = 16 ∧
    (allocate ctxFail initWorld).2.pool.mCurrentBlockEnd = 8200 ∧
    (allocate ctxFail initWorld).2.pool.mBlockList = [] ∧
    (allocate ctxFail initWorld).2.mallocs = 1 := by
  decide

/-- C2: evaluation of `reserve 1` at the failing input — system allocator
returns null. The null check tests the aligned pointer
`align(nullptr + 8, 8) = 8 ≠ 0`, so the failure branch is dead: a bogus
chunk at address 8 is pushed onto the free list and `mNextAllocSize` is
left multiplied by the growth factor (`grow 1 = 2`), although zero blocks
were acquired — the state is changed, and `reserve` (returning `void`)
reports nothing, contradicting the claimed no-partial-reservation
failure report. -/
theorem c2_eval :
    (reserve ctxFail 1 initWorld).pool.mChunkList = [8] ∧
    (reserve ctxFail 1 initWorld).pool.mNextAllocSize = 2 ∧
    (reserve ctxFail 1 initWorld).pool.mBlockList = [] ∧
    (reserve ctxFail 1 initWorld).mallocs = 1 := by
  decide

/-- C3: evaluation of a block acquisition with `sizeof(T) = 8`,
`alignof(T) = 4`, growth count 1024, block at address 16. The request is
`1024*8 + 4 = 8196` bytes — not the claimed
`1024*8 + 4 + 8 = 8208` including the pointer-size header — and as a
consequence the cursor end (8220) lies beyond the end of the acquired
region (16 + 8196 = 8212): the missing `pointer_size` term is consumed by
the intrusive block-list header that `alignedMalloc` skips. -/
theorem c3_eval :
    (allocBlock ctxA4 initWorld).requests = [8196] ∧
    1024 * 8 + 4 + 8 ≠ 8196 ∧
    (allocBlock ctxA4 initWorld).pool.mCurrentBlockEnd = 8220 ∧
    16 + 8196 < 8220 := by
  decide

/-- C6: evaluation of the operation sequence `reserve 1; allocate;
reserve 1; allocate` under an exhausted system allocator, with no
`deallocate` anywhere: both allocates return the same address 8, because
each failed acquisition silently repopulates the free list with the chunk
carved from `align(nullptr + 8, 8)` — the same address is issued twice
without having been deallocated in between. -/
theorem c6_eval :
    (allocate ctxFail (reserve ctxFail 1 initWorld)).1 = 8 ∧
    (allocate ctxFail
      (reserve ctxFail 1
        (allocate ctxFail (reserve ctxFail 1 initWorld)).2)).1 = 8 := by
  decide

/-- C7: LIFO recycling. In any pool state, allocating a chunk `a`, then
deallocating it, then allocating again with no other operation in between
returns exactly `a`; and in the concrete scenario
`a = allocate(); b = allocate(); deallocate(a); c = allocate()` on a fresh
pool with a working system allocator, `c = a` and `b ≠ a`. -/
theorem c7_lifo :
    (∀ (c : Ctx) (w : World),
      (allocate c (deallocate (allocate c w).1 (allocate c w).2)).1
        = (allocate c w).1) ∧
    ((allocate ctxOk
        (deallocate (allocate ctxOk initWorld).1
          (allocate ctxOk (allocate ctxOk initWorld).2).2)).1
      = (allocate ctxOk initWorld).1 ∧
     (allocate ctxOk (allocate ctxOk initWorld).2).1
      ≠ (allocate ctxOk initWorld).1) := by
  refine ⟨fun c w => rfl, by decide, by decide⟩

/-- C10: a freshly constructed pool has `mNextAllocSize = 1024`, so its
first block acquisition requests `1024*sizeof(T) + alignof(T)` bytes;
every `reserve n` overwrites `mNextAllocSize` with exactly `n` before
acquiring (its request is for `n` chunks, whatever the previous count
was), and leaves `mNextAllocSize = grow n` behind, so the next automatic
acquisition requests `grow n` chunks regardless of earlier block sizes. -/
theorem c10_growth :
    initWorld.pool.mNextAllocSize = 1024 ∧
    (∀ c : Ctx, (allocBlock c initWorld).requests = [1024 * c.sizeT + c.alignT]) ∧
    (∀ (c : Ctx) (n : Nat) (w : World),
      (reserve c n w).requests = (n * c.sizeT + c.alignT) :: w.requests) ∧
    (∀ (c : Ctx) (n : Nat) (w : World),
      (reserve c n w).pool.mNextAllocSize = c.grow n) ∧
    (∀ (c : Ctx) (n : Nat) (w : World),
      (allocBlock c (reserve c n w)).requests
        = (c.grow n * c.sizeT + c.alignT) :: (reserve c n w).requests) := by
  have hreq : ∀ (c : Ctx) (n : Nat) (w : World),
      (reserve c n w).requests = (n * c.sizeT + c.alignT) :: w.requests := by
    intro c n w
    unfold reserve alignedMalloc callMalloc bytesToAlloc
    dsimp only
    split <;> rfl
  have hnas : ∀ (c : Ctx) (n : Nat) (w : World),
      (reserve c n w).pool.mNextAllocSize = c.grow n := by
    intro c n w
    unfold reserve alignedMalloc callMalloc
    dsimp only
    split <;> rfl
  refine ⟨rfl, fun c => rfl, hreq, hnas, ?_⟩
  intro c n w
  show ((reserve c n w).pool.mNextAllocSize * c.sizeT + c.alignT)
      :: (reserve c n w).requests = _
  rw [hnas c n w]

/-- The `reserve` loop pushes exactly `n` chunks. -/
lemma pushRange_length (s : Nat) :
    ∀ (n m : Nat) (l : List Nat), (pushRange s m n l).length = n + l.length := by
  intro n
  induction n with
  | zero => intro m l; exact (Nat.zero_add _).symm
  | succ n ih =>
    intro m l
    show (pushRange s ((m + s) % wordSize) n (m :: l)).length = n + 1 + l.length
    rw [ih]
    simp only [List.length_cons]
    omega

/-- `allocate` on a non-empty free-chunk list pops its head and touches
neither the cursor nor the system allocator. -/
lemma allocate_pop (c : Ctx) (w : World) (x : Nat) (rest : List Nat)
    (h : w.pool.mChunkList = x :: rest) :
    (allocate c w).1 = x ∧
    (allocate c w).2.pool.mChunkList = rest ∧
    (allocate c w).2.mallocs = w.mallocs ∧
    (allocate c w).2.pool.mCurrentBlock = w.pool.mCurrentBlock ∧
    (allocate c w).2.pool.mCurrentBlockEnd = w.pool.mCurrentBlockEnd := by
  obtain ⟨⟨bl, cl, nas, cb, cbe⟩, mc, rq, fr⟩ := w
  dsimp only at h
  subst h
  exact ⟨rfl, rfl, rfl, rfl, rfl⟩

/-- Iterating `allocate` over a sufficiently long free-chunk list only
drops from the list: no block acquisition, no cursor movement. -/
lemma allocN_pop (c : Ctx) :
    ∀ (k : Nat) (w : World), k ≤ w.pool.mChunkList.length →
      (allocN c k w).pool.mChunkList = w.pool.mChunkList.drop k ∧
      (allocN c k w).mallocs = w.mallocs ∧
      (allocN c k w).pool.mCurrentBlock = w.pool.mCurrentBlock ∧
      (allocN c k w).pool.mCurrentBlockEnd = w.pool.mCurrentBlockEnd := by
  intro k
  induction k with
  | zero => intro w h; exact ⟨rfl, rfl, rfl, rfl⟩
  | succ n ih =>
    intro w h
    obtain ⟨x, rest, hx⟩ : ∃ x rest, w.pool.mChunkList = x :: rest := by
      cases hcl : w.pool.mChunkList with
      | nil => rw [hcl] at h; simp at h
      | cons y ys => exact ⟨y, ys, rfl⟩
    obtain ⟨h1, h2, h3, h4, h5⟩ := allocate_pop c w x rest hx
    have hlen : n ≤ (allocate c w).2.pool.mChunkList.length := by
      rw [h2]; rw [hx] at h; simp at h; omega
    obtain ⟨g1, g2, g3, g4⟩ := ih (allocate c w).2 hlen
    refine ⟨?_, ?_, ?_, ?_⟩
    · show (allocN c n (allocate c w).2).pool.mChunkList = _
      rw [g1, h2, hx]
      rfl
    · show (allocN c n (allocate c w).2).mallocs = _
      rw [g2, h3]
    · show (allocN c n (allocate c w).2).pool.mCurrentBlock = _
      rw [g3, h4]
    · show (allocN c n (allocate c w).2).pool.mCurrentBlockEnd = _
      rw [g4, h5]

/-- `allocate` on an empty free-chunk list with a full cursor performs
exactly one block acquisition. -/
lemma allocate_exhausted (c : Ctx) (w : World) (h : w.pool.mChunkList = [])
    (hroom : ¬ w.pool.mCurrentBlock + c.sizeT ≤ w.pool.mCurrentBlockEnd) :
    (allocate c w).2.mallocs = w.mallocs + 1 := by
  obtain ⟨⟨bl, cl, nas, cb, cbe⟩, mc, rq, fr⟩ := w
  dsimp only at h hroom
  subst h
  dsimp only [allocate]
  rw [if_neg hroom]
  rfl

/-- C8 counterexample: the claim quantifies over every pool, but on a pool
that already holds a free chunk (here obtained by a prior `reserve 1`), a
successful `reserve 1` is followed by a first `allocate` with no
acquisition and a second — the (n+1)-th — `allocate` that also triggers
no acquisition (the malloc counter stays at 2), contradicting the claimed
"exactly one new block acquisition". -/
theorem c8_cex :
    (reserve ctxOk 1 (reserve ctxOk 1 initWorld)).mallocs = 2 ∧
    (allocate ctxOk
      (allocate ctxOk (reserve ctxOk 1 (reserve ctxOk 1 initWorld))).2).2.mallocs
      = 2 := by
  decide

/-- C8 (amended): for every pool `w`, after a successful `reserve n` the
first `n` calls to `allocate` are served from the pre-populated free-chunk
list and issue no system-allocator request; and when the pool's free-chunk
list was empty and its cursor had no room before the `reserve` (e.g. a
freshly constructed pool), the (n+1)-th `allocate` issues exactly one new
block acquisition. -/
theorem c8_amended (c : Ctx) (n : Nat) (w : World) (hn : 0 < n)
    (hs0 : 0 < c.sizeT)
    (hm : align ((c.heap w.mallocs + ptrSize) % wordSize) c.alignT ≠ 0) :
    (allocN c n (reserve c n w)).mallocs = (reserve c n w).mallocs ∧
    (w.pool.mChunkList = [] →
      ¬ w.pool.mCurrentBlock + c.sizeT ≤ w.pool.mCurrentBlockEnd →
      (allocate c (allocN c n (reserve c n w))).2.mallocs
        = (reserve c n w).mallocs + 1) := by
  have hres : (reserve c n w).pool.mChunkList
        = pushRange c.sizeT (align ((c.heap w.mallocs + ptrSize) % wordSize) c.alignT)
            n w.pool.mChunkList ∧
      (reserve c n w).pool.mCurrentBlock = w.pool.mCurrentBlock ∧
      (reserve c n w).pool.mCurrentBlockEnd = w.pool.mCurrentBlockEnd := by
    unfold reserve alignedMalloc callMalloc
    dsimp only
    rw [if_neg hm]
    exact ⟨rfl, rfl, rfl⟩
  have hlen : n ≤ (reserve c n w).pool.mChunkList.length := by
    rw [hres.1, pushRange_length]
    omega
  obtain ⟨g1, g2, g3, g4⟩ := allocN_pop c n (reserve c n w) hlen
  refine ⟨g2, fun hcl hroom => ?_⟩
  have hempty : (allocN c n (reserve c n w)).pool.mChunkList = [] := by
    rw [g1, hres.1, hcl]
    refine List.drop_eq_nil_of_le ?_
    rw [pushRange_length]
    simp
  have hroom2 : ¬ (allocN c n (reserve c n w)).pool.mCurrentBlock + c.sizeT
      ≤ (allocN c n (reserve c n w)).pool.mCurrentBlockEnd := by
    rw [g3, g4, hres.2.1, hres.2.2]
    exact hroom
  rw [allocate_exhausted c _ hempty hroom2, g2]

/-- C8 witness: the amended theorem applied to a fresh pool with
`reserve 3` under a working system allocator — three acquisition-free
allocates, then the fourth performs exactly one acquisition. -/
theorem c8_amended_witness :
    (allocN ctxOk 3 (reserve ctxOk 3 initWorld)).mallocs
      = (reserve ctxOk 3 initWorld).mallocs ∧
    (allocate ctxOk (allocN ctxOk 3 (reserve ctxOk 3 initWorld))).2.mallocs
      = (reserve ctxOk 3 initWorld).mallocs + 1 :=
  ⟨(c8_amended ctxOk 3 initWorld (by norm_num) (by decide) (by decide)).1,
   (c8_amended ctxOk 3 initWorld (by norm_num) (by decide) (by decide)).2
     (by decide) (by decide)⟩

/-- Stepping an aligned address by a multiple of the alignment, modulo the
word size, preserves alignment (the alignment divides the word size). -/
lemma step_mod (k s x : Nat) (hk : k ≤ 64) (hx : x % 2 ^ k = 0)
    (hs : (2 ^ k : Nat) ∣ s) : (x + s) % wordSize % 2 ^ k = 0 := by
  have hW : (2 ^ k : Nat) ∣ wordSize := pow_dvd_pow 2 hk
  rw [Nat.mod_mod_of_dvd _ hW, Nat.add_mod, hx]
  obtain ⟨u, hu⟩ := hs
  rw [hu, Nat.mul_mod_right]
  simp

/-- Every chunk the `reserve` loop pushes is aligned, provided the loop
starts at an aligned address and steps by a multiple of the alignment. -/
lemma pushRange_aligned (k s : Nat) (hk : k ≤ 64) (hs : (2 ^ k : Nat) ∣ s) :
    ∀ (n m : Nat) (l : List Nat), m % 2 ^ k = 0 → (∀ x ∈ l, x % 2 ^ k = 0) →
      ∀ x ∈ pushRange s m n l, x % 2 ^ k = 0 := by
  intro n
  induction n with
  | zero => intro m l hm hl x hx; exact hl x hx
  | succ n ih =>
    intro m l hm hl x hx
    refine ih ((m + s) % wordSize) (m :: l) (step_mod k s m hk hm hs) ?_ x hx
    intro y hy
    rcases List.mem_cons.mp hy with h | h
    · rw [h]; exact hm
    · exact hl y h

/-- The alignment invariant: every address in the free-chunk list, the
cursor head, and every live chunk is a multiple of `alignof(T)`. -/
def AlignedInv (c : Ctx) (w : World) (live : List Nat) : Prop :=
  (∀ x ∈ w.pool.mChunkList, x % c.alignT = 0) ∧
  w.pool.mCurrentBlock % c.alignT = 0 ∧
  (∀ x ∈ live, x % c.alignT = 0)

/-- `allocate` returns an aligned chunk and preserves the alignment
invariant, in all three of its paths (free-list pop, carve from the
current block, carve from a freshly acquired block). -/
lemma allocate_aligned (c : Ctx) (k : Nat) (w : World) (live : List Nat)
    (ha : c.alignT = 2 ^ k) (hk : k ≤ 64) (hs : c.alignT ∣ c.sizeT)
    (hI : AlignedInv c w live) :
    (allocate c w).1 % c.alignT = 0 ∧
    AlignedInv c (allocate c w).2 ((allocate c w).1 :: live) := by
  obtain ⟨hcl, hcb, hlive⟩ := hI
  obtain ⟨⟨bl, cl, nas, cb, cbe⟩, mc, rq, fr⟩ := w
  dsimp only at hcl hcb
  cases cl with
  | cons x rest =>
    have hx : x % c.alignT = 0 := hcl x (List.mem_cons_self _ _)
    refine ⟨hx, ?_, hcb, ?_⟩
    · intro y hy
      exact hcl y (List.mem_cons_of_mem _ hy)
    · intro y hy
      rcases List.mem_cons.mp hy with h | h
      · rw [h]; exact hx
      · exact hlive y h
  | nil =>
    dsimp only [allocate]
    by_cases hroom : cb + c.sizeT ≤ cbe
    · rw [if_pos hroom]
      refine ⟨hcb, ?_, ?_, ?_⟩
      · intro y hy
        exact absurd hy (List.not_mem_nil y)
      · show (cb + c.sizeT) % wordSize % c.alignT = 0
        rw [ha] at hcb hs ⊢
        exact step_mod k c.sizeT cb hk hcb hs
      · intro y hy
        rcases List.mem_cons.mp hy with h | h
        · rw [h]; exact hcb
        · exact hlive y h
    · rw [if_neg hroom]
      have hal : align ((c.heap mc + ptrSize) % wordSize) c.alignT % c.alignT = 0 := by
        rw [ha]
        exact align_mod _ k hk
      refine ⟨hal, ?_, ?_, ?_⟩
      · intro y hy
        exact absurd hy (List.not_mem_nil y)
      · show (align ((c.heap mc + ptrSize) % wordSize) c.alignT + c.sizeT) % wordSize
            % c.alignT = 0
        rw [ha] at hal hs ⊢
        exact step_mod k c.sizeT _ hk hal hs
      · intro y hy
        rcases List.mem_cons.mp hy with h | h
        · rw [h]; exact hal
        · exact hlive y h

/-- `reserve` preserves the alignment invariant: the chunks it pushes
start at an output of `align` and step by `sizeof(T)`. -/
lemma reserve_aligned (c : Ctx) (k n : Nat) (w : World) (live : List Nat)
    (ha : c.alignT = 2 ^ k) (hk : k ≤ 64) (hs : c.alignT ∣ c.sizeT)
    (hI : AlignedInv c w live) : AlignedInv c (reserve c n w) live := by
  obtain ⟨hcl, hcb, hlive⟩ := hI
  refine ⟨?_, ?_, hlive⟩
  · show ∀ x ∈ (reserve c n w).pool.mChunkList, x % c.alignT = 0
    unfold reserve alignedMalloc callMalloc
    dsimp only
    split
    · exact hcl
    · intro x hx
      rw [ha] at hx ⊢
      refine pushRange_aligned k c.sizeT hk (ha ▸ hs) n _ _ ?_ ?_ x hx
      · exact align_mod _ k hk
      · intro y hy
        rw [← ha]
        exact hcl y hy
  · show (reserve c n w).pool.mCurrentBlock % c.alignT = 0
    unfold reserve alignedMalloc callMalloc
    dsimp only
    split
    · exact hcb
    · exact hcb

/-- Every pool state reachable under the caller contract satisfies the
alignment invariant. -/
lemma reach_aligned (c : Ctx) (k : Nat) (ha : c.alignT = 2 ^ k) (hk : k ≤ 64)
    (hs : c.alignT ∣ c.sizeT) :
    ∀ pr : World × List Nat, Reach c pr → AlignedInv c pr.1 pr.2 := by
  intro pr h
  induction h with
  | refl =>
    refine ⟨?_, ?_, ?_⟩
    · intro y hy
      exact absurd hy (List.not_mem_nil y)
    · exact Nat.zero_mod _
    · intro y hy
      exact absurd hy (List.not_mem_nil y)
  | tail hab hstep ih =>
    cases hstep with
    | alloc w live => exact (allocate_aligned c k w live ha hk hs ih).2
    | dealloc w live x hx =>
      obtain ⟨hcl, hcb, hlive⟩ := ih
      refine ⟨?_, hcb, ?_⟩
      · intro y hy
        rcases List.mem_cons.mp hy with h | h
        · rw [h]; exact hlive x hx
        · exact hcl y h
      · intro y hy
        exact hlive y (List.mem_of_mem_erase hy)
    | reserveStep w live n hn => exact reserve_aligned c k n w live ha hk hs ih

/-- C5: for every type with `sizeof(T) ≥ pointer size`, power-of-two
`alignof(T)` between 1 and 64 (`2 ^ k`, `k ≤ 6`) dividing `sizeof(T)` (a
C++ type-system fact), and every operation sequence respecting the caller
contract, the chunk address returned by the next `allocate` is a multiple
of `alignof(T)` — covering chunks carved fresh from a block, recycled
through the free-chunk list, and pre-populated by `reserve`. -/
theorem c5_alignment (c : Ctx) (k : Nat) (w : World) (live : List Nat)
    (ha : c.alignT = 2 ^ k) (hk : k ≤ 6) (hs : c.alignT ∣ c.sizeT)
    (hps : ptrSize ≤ c.sizeT) (hr : Reach c (w, live)) :
    (allocate c w).1 % c.alignT = 0 :=
  (allocate_aligned c k w live ha (by omega) hs
    (reach_aligned c k ha (by omega) hs (w, live) hr)).1

/-- C5 witness: the alignment theorem applied to a fresh pool with
`sizeof(T) = alignof(T) = 8` and a working system allocator. -/
theorem c5_alignment_witness : (allocate ctxOk initWorld).1 % ctxOk.alignT = 0 :=
  c5_alignment ctxOk 3 initWorld [] (by decide) (by norm_num) (by decide)
    (by decide) Relation.ReflTransGen.refl

/-- `allocate` never calls `free`; it either leaves the system-allocator
bookkeeping untouched (free-list pop, carve) or performs exactly one
acquisition, pushing the block onto `mBlockList` iff it succeeded. -/
lemma allocate_book (c : Ctx) (w : World) :
    (allocate c w).2.freed = w.freed ∧
    (((allocate c w).2.mallocs = w.mallocs ∧
      (allocate c w).2.pool.mBlockList = w.pool.mBlockList) ∨
     ((allocate c w).2.mallocs = w.mallocs + 1 ∧
      (allocate c w).2.pool.mBlockList =
        (if c.heap w.mallocs = 0 then w.pool.mBlockList
         else c.heap w.mallocs :: w.pool.mBlockList))) := by
  obtain ⟨⟨bl, cl, nas, cb, cbe⟩, mc, rq, fr⟩ := w
  cases cl with
  | cons x rest => exact ⟨rfl, Or.inl ⟨rfl, rfl⟩⟩
  | nil =>
    dsimp only [allocate]
    by_cases hroom : cb + c.sizeT ≤ cbe
    · rw [if_pos hroom]
      exact ⟨rfl, Or.inl ⟨rfl, rfl⟩⟩
    · rw [if_neg hroom]
      exact ⟨rfl, Or.inr ⟨rfl, rfl⟩⟩

/-- `reserve` never calls `free` and performs exactly one acquisition,
pushing the block onto `mBlockList` iff it succeeded. -/
lemma reserve_book (c : Ctx) (n : Nat) (w : World) :
    (reserve c n w).freed = w.freed ∧
    (reserve c n w).mallocs = w.mallocs + 1 ∧
    (reserve c n w).pool.mBlockList =
      (if c.heap w.mallocs = 0 then w.pool.mBlockList
       else c.heap w.mallocs :: w.pool.mBlockList) := by
  unfold reserve alignedMalloc callMalloc
  dsimp only
  refine ⟨?_, ?_, ?_⟩ <;> (split <;> rfl)

/-- In every reachable pool state, no `free` has ever been issued, and
`mBlockList` holds exactly the successful acquisitions, newest first. -/
lemma reach_blocks (c : Ctx) :
    ∀ pr : World × List Nat, Reach c pr →
      pr.1.freed = [] ∧ pr.1.pool.mBlockList = successList c.heap pr.1.mallocs := by
  intro pr h
  induction h with
  | refl => exact ⟨rfl, rfl⟩
  | tail hab hstep ih =>
    cases hstep with
    | alloc w live =>
      obtain ⟨hf, hbl⟩ := allocate_book c w
      refine ⟨hf.trans ih.1, ?_⟩
      rcases hbl with ⟨h1, h2⟩ | ⟨h1, h2⟩
      · rw [h2, h1]
        exact ih.2
      · rw [h2, h1]
        show _ = successList c.heap (w.mallocs + 1)
        rw [ih.2]
        rfl
    | dealloc w live x hx => exact ih
    | reserveStep w live n hn =>
      obtain ⟨hf, hm, hbl⟩ := reserve_book c n w
      refine ⟨hf.trans ih.1, ?_⟩
      rw [hbl, hm]
      show _ = successList c.heap (w.mallocs + 1)
      rw [ih.2]
      rfl

/-- C9: along any operation sequence respecting the caller contract, a
pool issues no `free` before destruction, and its destructor releases
exactly the blocks successfully acquired over its lifetime — one `free`
per acquired block, `k` releases for `k` acquisitions. -/
theorem c9_teardown (c : Ctx) (w : World) (live : List Nat)
    (hr : Reach c (w, live)) :
    w.freed = [] ∧ (destroy w).freed = successList c.heap w.mallocs := by
  have h := reach_blocks c (w, live) hr
  refine ⟨h.1, ?_⟩
  show w.freed ++ w.pool.mBlockList = _
  rw [h.1, h.2]
  rfl

/-- C9 witness: the teardown theorem applied after one `allocate` on a
fresh pool with a working system allocator (one acquisition, released
exactly once at destruction). -/
theorem c9_teardown_witness :
    (allocate ctxOk initWorld).2.freed = [] ∧
    (destroy (allocate ctxOk initWorld).2).freed
      = successList ctxOk.heap (allocate ctxOk initWorld).2.mallocs :=
  c9_teardown ctxOk (allocate ctxOk initWorld).2 [(allocate ctxOk initWorld).1]
    (Relation.ReflTransGen.single (Step.alloc initWorld []))

end art
